import Mathlib

/-!
Verification of the ShuaiTravelAgent frontend streaming and session layer.

The definitions below are a shallow embedding of:
  * `fetchStreamChat` from `src/unnamed/part_001` (the typed SSE variant used by
    `ChatArea`): the read loop, per-line SSE parsing, and the callback dispatch;
  * `handleSend` from `src/frontend/src/components/ChatArea.tsx` (first variant):
    user/assistant message appending, the streamed-text accumulators, and the
    auto-assigned session name;
  * `refreshSessions` / `updateSessionName` from the zustand session store in
    `src/unnamed/part_012`.

JavaScript string primitives used by the source (`split('\n')`, `startsWith`,
`slice`, `trim`) are embedded as structurally recursive functions on `List Char`
so that every definition evaluates inside the kernel.  `JSON.parse` is an
external library call; it is embedded as a parameter `parse` returning the
fields of the parsed object (`none` models a parse exception).
-/

namespace ShuaiTravel

/-! ## JavaScript string primitives -/

/-- Whitespace for the JS `trim` as it applies to SSE payload lines. -/
def isWs (c : Char) : Bool :=
  c == ' ' || c == '\n' || c == '\r' || c == '\t'

/-- JS `String.prototype.trim`: strip leading and trailing whitespace. -/
def trimChars (l : List Char) : List Char :=
  ((l.dropWhile isWs).reverse.dropWhile isWs).reverse

/-- JS `String.prototype.split('\n')`. -/
def splitNl : List Char → List (List Char)
  | [] => [[]]
  | c :: cs =>
    if c = '\n' then [] :: splitNl cs
    else
      match splitNl cs with
      | [] => [[c]]
      | t :: ts => (c :: t) :: ts

/-- JS `line.startsWith('data: ')`. -/
def isDataLine (l : List Char) : Bool :=
  l.take 6 == "data: ".data

/-- JS `trim` on a `String` (used by `handleSend` on the input value). -/
def jsTrim (s : String) : String :=
  String.mk (trimChars s.data)

/-- JS `s.slice(0, n)` (used for the auto-assigned session name). -/
def jsTake (s : String) (n : Nat) : String :=
  String.mk (s.data.take n)

/-! ## SSE data objects and callback events

`SSEObj` holds the four fields of a parsed `data:` payload that
`fetchStreamChat` inspects: `data.type`, `data.content`, `data.chunk`,
`data.error`.  `none` models an absent field. -/

structure SSEObj where
  type : Option String
  content : Option String
  chunk : Option String
  error : Option String
deriving DecidableEq, Repr

/-- JS truthiness of a string-valued field: present and nonempty. -/
def truthy : Option String → Bool
  | none => false
  | some s => !(s == "")

/-- One callback invocation of `fetchStreamChat`, in the order delivered. -/
inductive CB where
  | onChunk (content : String)
  | onReasoning (content : String)
  | onReasoningStart
  | onReasoningEnd
  | onAnswerStart
  | onMetadata
  | onError (msg : String)
  | onComplete
deriving DecidableEq, Repr

/-- The `if (dataType === ...)` dispatch chain of `fetchStreamChat`
(`src/unnamed/part_001`, lines 126-158) applied to one parsed data object.
Returns the callbacks invoked and whether the surrounding function `return`s. -/
def processObj (o : SSEObj) : List CB × Bool :=
  if o.type = some "metadata" then ([CB.onMetadata], false)
  else if o.type = some "reasoning_start" then ([CB.onReasoningStart], false)
  else if o.type = some "reasoning_chunk" ∧ truthy o.content = true then
    ([CB.onReasoning (o.content.getD "" ++ "\n")], false)
  else if o.type = some "reasoning_end" then ([CB.onReasoningEnd], false)
  else if o.type = some "answer_start" then ([CB.onAnswerStart], false)
  else if o.type = some "chunk" ∧ truthy o.content = true then
    ([CB.onChunk (o.content.getD "")], false)
  else if o.type = some "error" ∧ truthy o.content = true then
    ([CB.onError (o.content.getD "")], true)
  else if o.type = some "done" then ([CB.onComplete], true)
  else if truthy o.chunk = true then ([CB.onChunk (o.chunk.getD "")], false)
  else if truthy o.error = true then ([CB.onError (o.error.getD "")], true)
  else ([], false)

/-- The `for (const line of lines)` loop of `fetchStreamChat`: lines not
starting with `data: ` are skipped, `[DONE]` completes and returns, a JSON
parse failure (`parse _ = none`) is silently ignored, otherwise the parsed
object is dispatched.  Returns the callbacks invoked and whether the
surrounding function `return`s. -/
def runLines (parse : List Char → Option SSEObj) : List (List Char) → List CB × Bool
  | [] => ([], false)
  | line :: rest =>
    if isDataLine line then
      if trimChars (line.drop 6) = "[DONE]".data then ([CB.onComplete], true)
      else
        match parse (trimChars (line.drop 6)) with
        | none => runLines parse rest
        | some o =>
          if (processObj o).2 then processObj o
          else ((processObj o).1 ++ (runLines parse rest).1, (runLines parse rest).2)
    else runLines parse rest

/-- The `while (true)` read loop of `fetchStreamChat`.  `chunks` are the
decoded fragments successive `reader.read()` calls deliver; once they are
exhausted the next read either reports `done` (`failMsg = none`) or rejects
with a network error caught by the surrounding `try` (`failMsg = some m`).
`stops i` is the value `callbacks.onStop()` returns at the top of iteration
`i`; when it is `true` the reader is cancelled and the loop breaks. -/
def runLoop (parse : List Char → Option SSEObj) (stops : Nat → Bool)
    (failMsg : Option String) : List (List Char) → Nat → List CB
  | [], i =>
    if stops i then []
    else
      match failMsg with
      | none => [CB.onComplete]
      | some m => [CB.onError m]
  | c :: rest, i =>
    if stops i then []
    else
      if (runLines parse (splitNl c)).2 then (runLines parse (splitNl c)).1
      else (runLines parse (splitNl c)).1 ++ runLoop parse stops failMsg rest (i + 1)

/-- How the `fetch` call and response turn out, before/while the read loop runs. -/
inductive FetchOutcome where
  | httpError (status : Nat) (errorText : String)
  | noReader
  | networkFail (msg : String)
  | stream (chunks : List (List Char)) (failMsg : Option String)

/-- Embedding of `fetchStreamChat` (`src/unnamed/part_001`, lines 66-169): the sequence
of callbacks it delivers for a given fetch outcome. -/
def fetchStreamChat (parse : List Char → Option SSEObj) (stops : Nat → Bool) :
    FetchOutcome → List CB
  | FetchOutcome.httpError status errorText =>
    [CB.onError ("HTTP error! status: " ++ toString status ++ " - " ++ errorText)]
  | FetchOutcome.noReader => [CB.onError "无法读取响应流"]
  | FetchOutcome.networkFail m => [CB.onError m]
  | FetchOutcome.stream chunks failMsg => runLoop parse stops failMsg chunks 0

/-! ## Trace shape: a body free of terminal events, then one optional terminal -/

/-- A callback list containing neither `onError` nor `onComplete`. -/
def noTerm (l : List CB) : Prop :=
  (∀ e, CB.onError e ∉ l) ∧ CB.onComplete ∉ l

/-- The possible terminal segments of a trace. -/
def TailOk (t : List CB) : Prop :=
  t = [] ∨ t = [CB.onComplete] ∨ ∃ e, t = [CB.onError e]

/-- A trace that splits into a terminal-free body and an optional terminal. -/
def Shaped (l : List CB) : Prop :=
  ∃ b t, l = b ++ t ∧ noTerm b ∧ TailOk t

/-- A concrete JSON-parse oracle used to evaluate the stream model on concrete
inputs: payload `R` is a reasoning fragment, `C` a chunk, `E` an error event,
`D` the typed `done` event, `Z` a chunk event with empty content. -/
def parseDemo : List Char → Option SSEObj := fun s =>
  if s = "R".data then some ⟨some "reasoning_chunk", some "a", none, none⟩
  else if s = "C".data then some ⟨some "chunk", some "b", none, none⟩
  else if s = "E".data then some ⟨some "error", some "boom", none, none⟩
  else if s = "D".data then some ⟨some "done", none, none, none⟩
  else if s = "Z".data then some ⟨some "chunk", some "", none, none⟩
  else none

/-- A parse oracle for payloads carrying the legacy fields: `L` is a `chunk`
event with empty `content` and a legacy `chunk` field, `M` a `chunk` event
with empty `content` and a legacy `error` field. -/
def parseLegacy : List Char → Option SSEObj := fun s =>
  if s = "L".data then some ⟨some "chunk", some "", some "x", none⟩
  else if s = "M".data then some ⟨some "chunk", some "", none, some "e"⟩
  else none

/-! ## The ChatArea `handleSend` turn (src/frontend/src/components/ChatArea.tsx) -/

/-- A message in the UI message list (`role`, `content`, optional `reasoning`). -/
structure ChatMsg where
  role : String
  content : String
  reasoning : Option String
deriving DecidableEq, Repr

/-- The mutable state `handleSend` threads through its callbacks: the local
accumulators `fullResponse` and `fullReasoning`, the message list, and the
error banner set by `setError`. -/
structure HandleState where
  fullResponse : String
  fullReasoning : String
  messages : List ChatMsg
  errMsg : Option String
deriving DecidableEq, Repr

/-- The effect of one delivered callback on `handleSend`'s state
(`ChatArea.tsx` lines 156-199).  `sM0` is the value of the `streamingMessage`
state variable captured by the `onComplete` closure; the persisted content is
`fullResponse || streamingMessage`. -/
def handleStep (sM0 : String) (st : HandleState) : CB → HandleState
  | CB.onChunk c => { st with fullResponse := st.fullResponse ++ c }
  | CB.onReasoning c => { st with fullReasoning := st.fullReasoning ++ c }
  | CB.onReasoningStart => st
  | CB.onReasoningEnd => st
  | CB.onAnswerStart => st
  | CB.onMetadata => st
  | CB.onError e =>
    { st with errMsg := some e, fullResponse := "抱歉，出现错误：" ++ e }
  | CB.onComplete =>
    { st with messages := st.messages ++
        [⟨"assistant", if st.fullResponse = "" then sM0 else st.fullResponse,
          some st.fullReasoning⟩] }

/-- Concatenation, in arrival order, of the fragments delivered by `onChunk`. -/
def chunkConcat : List CB → String
  | [] => ""
  | CB.onChunk c :: l => c ++ chunkConcat l
  | _ :: l => chunkConcat l

/-- Concatenation, in arrival order, of the fragments delivered by `onReasoning`. -/
def reasoningConcat : List CB → String
  | [] => ""
  | CB.onReasoning c :: l => c ++ reasoningConcat l
  | _ :: l => reasoningConcat l

/-- The auto-assigned session name (`ChatArea.tsx` line 140):
`userMessageContent.slice(0, 15) + (userMessageContent.length > 15 ? '...' : '')`. -/
def sessionNameFor (userMessageContent : String) : String :=
  jsTake userMessageContent 15 ++
    (if 15 < userMessageContent.data.length then "..." else "")

/-- The result of one `handleSend` invocation: whether anything was sent, the
session name written by `updateSessionName` (if any), and the final state. -/
structure SendResult where
  sent : Bool
  nameSet : Option String
  final : HandleState
deriving Repr

/-- Embedding of `handleSend` (`ChatArea.tsx` lines 101-203): bail out on blank input,
append the user message (untrimmed `inputValue`), auto-assign a session name
exactly on the first message (`!currentSessionId || messages.length === 0`),
then run the stream and fold its callbacks over the state. -/
def handleSend (currentSessionId : Option String) (messages : List ChatMsg)
    (sM0 inputValue : String) (parse : List Char → Option SSEObj)
    (stops : Nat → Bool) (outcome : FetchOutcome) : SendResult :=
  if jsTrim inputValue = "" then ⟨false, none, ⟨"", "", messages, none⟩⟩
  else
    ⟨true,
      if currentSessionId.isNone || messages.isEmpty then
        some (sessionNameFor (jsTrim inputValue))
      else none,
      (fetchStreamChat parse stops outcome).foldl (handleStep sM0)
        ⟨"", "", messages ++ [⟨"user", inputValue, none⟩], none⟩⟩

/-! ## The zustand session store (src/unnamed/part_012) -/

/-- An entry of the `/api/sessions` response, as the store consumes it
(`session_id`, `message_count`, `last_active` as a timestamp, `name`,
`model_id`). -/
structure SessionInfo where
  session_id : String
  message_count : Nat
  last_active : Int
  name : Option String
  model_id : String
deriving DecidableEq, Repr

/-- JS `Map.prototype.set` on an association list with unique keys: an
existing key keeps its position and gets the new value, a fresh key is
appended at the end.  `new Map(data.sessions.map(s => [s.session_id, s]))`
builds its entries by successive `set`. -/
def jsMapSet : List (String × SessionInfo) → String → SessionInfo →
    List (String × SessionInfo)
  | [], k, v => [(k, v)]
  | p :: m, k, v => if p.1 == k then (k, v) :: m else p :: jsMapSet m k v

/-- The keyed map `uniqueSessionsMap` of `refreshSessions`. -/
def buildSessionMap (resp : List SessionInfo) : List (String × SessionInfo) :=
  resp.foldl (fun m s => jsMapSet m s.session_id s) []

/-- The array `uniqueSessions = Array.from(uniqueSessionsMap.values())`. -/
def uniqueSessions (resp : List SessionInfo) : List SessionInfo :=
  (buildSessionMap resp).map Prod.snd

/-- Embedding of `refreshSessions` (src/unnamed/part_012, lines 67-89): deduplicate the
server response by `session_id`, then, unless `includeEmpty`, keep only
sessions with messages or with `last_active` within the last hour
(`oneHourAgo = Date.now() - 60 * 60 * 1000`). -/
def refreshSessions (includeEmpty : Bool) (now : Int) (resp : List SessionInfo) :
    List SessionInfo :=
  if includeEmpty then uniqueSessions resp
  else
    (uniqueSessions resp).filter fun s =>
      decide (0 < s.message_count) || decide (now - 60 * 60 * 1000 < s.last_active)

/-- Modelled from the spec: the backend session store is not under `src/`
(only its HTTP client and a test mock are), so the server side of
`renameSession(sessionId, newName)` is taken from the spec, which says the
operation sets the session's mutable display name. -/
def renameSession (sessionId name : String) (server : List SessionInfo) :
    List SessionInfo :=
  server.map fun s =>
    if s.session_id == sessionId then { s with name := some name } else s

/-- The session store's state: the backend's session list and the client's
filtered `sessions` array. -/
structure SessionStoreState where
  serverSessions : List SessionInfo
  sessions : List SessionInfo
deriving DecidableEq, Repr

/-- Embedding of `updateSessionName` of the store (src/unnamed/part_012, lines 58-61):
perform the rename on the backend, then `refreshSessions()` (default
`includeEmpty = false`) re-fetches and stores the filtered list.  `now` is
the clock reading of the refresh. -/
def updateSessionName (sessionId name : String) (now : Int)
    (st : SessionStoreState) : SessionStoreState :=
  { serverSessions := renameSession sessionId name st.serverSessions,
    sessions :=
      refreshSessions false now (renameSession sessionId name st.serverSessions) }

/-- Lookup in the association list underlying the keyed map. -/
def sessLookup : List (String × SessionInfo) → String → Option SessionInfo
  | [], _ => none
  | p :: m, k => if p.1 == k then some p.2 else sessLookup m k

theorem noTerm_nil : noTerm [] := by simp [noTerm]

theorem noTerm_append {a b : List CB} (ha : noTerm a) (hb : noTerm b) :
    noTerm (a ++ b) := by
  refine ⟨fun e => ?_, ?_⟩ <;> simp only [List.mem_append]
  · rintro (h | h)
    · exact ha.1 e h
    · exact hb.1 e h
  · rintro (h | h)
    · exact ha.2 h
    · exact hb.2 h

theorem processObj_cases (o : SSEObj) :
    ((processObj o).2 = false ∧ noTerm (processObj o).1) ∨
    ((processObj o).2 = true ∧
      ((processObj o).1 = [CB.onComplete] ∨ ∃ e, (processObj o).1 = [CB.onError e])) := by
  unfold processObj
  by_cases h1 : o.type = some "metadata"
  · rw [if_pos h1]; exact Or.inl ⟨rfl, by simp [noTerm]⟩
  rw [if_neg h1]
  by_cases h2 : o.type = some "reasoning_start"
  · rw [if_pos h2]; exact Or.inl ⟨rfl, by simp [noTerm]⟩
  rw [if_neg h2]
  by_cases h3 : o.type = some "reasoning_chunk" ∧ truthy o.content = true
  · rw [if_pos h3]; exact Or.inl ⟨rfl, by simp [noTerm]⟩
  rw [if_neg h3]
  by_cases h4 : o.type = some "reasoning_end"
  · rw [if_pos h4]; exact Or.inl ⟨rfl, by simp [noTerm]⟩
  rw [if_neg h4]
  by_cases h5 : o.type = some "answer_start"
  · rw [if_pos h5]; exact Or.inl ⟨rfl, by simp [noTerm]⟩
  rw [if_neg h5]
  by_cases h6 : o.type = some "chunk" ∧ truthy o.content = true
  · rw [if_pos h6]; exact Or.inl ⟨rfl, by simp [noTerm]⟩
  rw [if_neg h6]
  by_cases h7 : o.type = some "error" ∧ truthy o.content = true
  · rw [if_pos h7]; exact Or.inr ⟨rfl, Or.inr ⟨_, rfl⟩⟩
  rw [if_neg h7]
  by_cases h8 : o.type = some "done"
  · rw [if_pos h8]; exact Or.inr ⟨rfl, Or.inl rfl⟩
  rw [if_neg h8]
  by_cases h9 : truthy o.chunk = true
  · rw [if_pos h9]; exact Or.inl ⟨rfl, by simp [noTerm]⟩
  rw [if_neg h9]
  by_cases h10 : truthy o.error = true
  · rw [if_pos h10]; exact Or.inr ⟨rfl, Or.inr ⟨_, rfl⟩⟩
  rw [if_neg h10]
  exact Or.inl ⟨rfl, by simp [noTerm]⟩

theorem runLines_shape (parse : List Char → Option SSEObj) :
    ∀ lines : List (List Char),
      ((runLines parse lines).2 = false ∧ noTerm (runLines parse lines).1) ∨
      ((runLines parse lines).2 = true ∧ ∃ b, noTerm b ∧
        ((runLines parse lines).1 = b ++ [CB.onComplete] ∨
          ∃ e, (runLines parse lines).1 = b ++ [CB.onError e]))
  | [] => by simp [runLines, noTerm]
  | line :: rest => by
    have IH := runLines_shape parse rest
    rw [runLines]
    split
    · split
      · exact Or.inr ⟨rfl, [], noTerm_nil, Or.inl rfl⟩
      · split
        · exact IH
        · rename_i o heq
          rcases processObj_cases o with ⟨h2, hnt⟩ | ⟨h2, hterm⟩
          · simp only [h2, Bool.false_eq_true, if_false]
            rcases IH with ⟨k2, knt⟩ | ⟨k2, b, bnt, hb⟩
            · exact Or.inl ⟨k2, noTerm_append hnt knt⟩
            · refine Or.inr ⟨k2, (processObj o).1 ++ b, noTerm_append hnt bnt, ?_⟩
              rcases hb with hb | ⟨e, hb⟩
              · exact Or.inl (by simp [hb, List.append_assoc])
              · exact Or.inr ⟨e, by simp [hb, List.append_assoc]⟩
          · simp only [h2, if_true]
            rcases hterm with hterm | ⟨e, hterm⟩
            · exact Or.inr ⟨trivial, [], noTerm_nil, Or.inl (by simpa using hterm)⟩
            · exact Or.inr ⟨trivial, [], noTerm_nil, Or.inr ⟨e, by simpa using hterm⟩⟩
    · exact IH

theorem runLoop_shape (parse : List Char → Option SSEObj) (stops : Nat → Bool)
    (failMsg : Option String) :
    ∀ (chunks : List (List Char)) (i : Nat),
      Shaped (runLoop parse stops failMsg chunks i)
  | [], i => by
    simp only [runLoop]
    split
    · exact ⟨[], [], rfl, noTerm_nil, Or.inl rfl⟩
    · split
      · exact ⟨[], [CB.onComplete], rfl, noTerm_nil, Or.inr (Or.inl rfl)⟩
      · exact ⟨[], [CB.onError _], rfl, noTerm_nil, Or.inr (Or.inr ⟨_, rfl⟩)⟩
  | c :: rest, i => by
    have IH := runLoop_shape parse stops failMsg rest (i + 1)
    simp only [runLoop]
    split
    · exact ⟨[], [], rfl, noTerm_nil, Or.inl rfl⟩
    · rcases runLines_shape parse (splitNl c) with ⟨h2, hnt⟩ | ⟨h2, b, bnt, hb⟩
      · simp only [h2, Bool.false_eq_true, if_false]
        rcases IH with ⟨b', t', hsplit, bnt', ht'⟩
        exact ⟨(runLines parse (splitNl c)).1 ++ b', t',
          by rw [hsplit, List.append_assoc], noTerm_append hnt bnt', ht'⟩
      · simp only [h2, if_true]
        rcases hb with hb | ⟨e, hb⟩
        · exact ⟨b, [CB.onComplete], hb, bnt, Or.inr (Or.inl rfl)⟩
        · exact ⟨b, [CB.onError e], hb, bnt, Or.inr (Or.inr ⟨e, rfl⟩)⟩

theorem fetchStreamChat_shaped (parse : List Char → Option SSEObj)
    (stops : Nat → Bool) (outcome : FetchOutcome) :
    Shaped (fetchStreamChat parse stops outcome) := by
  cases outcome with
  | httpError status errorText =>
    exact ⟨[], [CB.onError _], rfl, noTerm_nil, Or.inr (Or.inr ⟨_, rfl⟩)⟩
  | noReader =>
    exact ⟨[], [CB.onError _], rfl, noTerm_nil, Or.inr (Or.inr ⟨_, rfl⟩)⟩
  | networkFail m =>
    exact ⟨[], [CB.onError _], rfl, noTerm_nil, Or.inr (Or.inr ⟨_, rfl⟩)⟩
  | stream chunks failMsg => exact runLoop_shape parse stops failMsg chunks 0

theorem shaped_error_terminal {l : List CB} (h : Shaped l) :
    ∀ pre e post, l = pre ++ CB.onError e :: post → post = [] := by
  rcases h with ⟨b, t, rfl, hb, ht⟩
  intro pre e post heq
  rcases ht with rfl | rfl | ⟨e', rfl⟩
  · exfalso
    refine hb.1 e ?_
    rw [List.append_nil] at heq
    rw [heq]
    exact List.mem_append_right pre (List.mem_cons_self _ _)
  · exfalso
    have hmem : CB.onError e ∈ b ++ [CB.onComplete] := by
      rw [heq]; exact List.mem_append_right pre (List.mem_cons_self _ _)
    rcases List.mem_append.mp hmem with hmem | hmem
    · exact hb.1 e hmem
    · simp at hmem
  · rcases List.append_eq_append_iff.mp heq with ⟨a', hpre, hsuf⟩ | ⟨c', hb', hsuf⟩
    · cases a' with
      | nil =>
        have h := hsuf.symm
        simp only [List.nil_append, List.cons.injEq] at h
        rcases h with ⟨-, h⟩
        simpa using h
      | cons x xs =>
        exfalso
        simp only [List.cons_append, List.cons.injEq] at hsuf
        exact List.cons_ne_nil _ _ (List.append_eq_nil.mp hsuf.2.symm).2
    · cases c' with
      | nil =>
        simp only [List.nil_append, List.cons.injEq] at hsuf
        rcases hsuf with ⟨-, h⟩
        exact h
      | cons x xs =>
        exfalso
        simp only [List.cons_append, List.cons.injEq] at hsuf
        refine hb.1 e ?_
        rw [hb', ← hsuf.1]
        exact List.mem_append_right pre (List.mem_cons_self _ _)

/-! ## C1, C2, C8, C9: stream-level claims -/

/-- C1: once an `error` event has been dispatched to `onError`, stream
processing returns immediately: no callback of any kind (`onComplete`,
`onChunk`, `onReasoning`, ...) follows it in the delivered sequence. -/
theorem fetchStreamChat_error_is_terminal (parse : List Char → Option SSEObj)
    (stops : Nat → Bool) (outcome : FetchOutcome) (pre : List CB) (e : String)
    (post : List CB)
    (h : fetchStreamChat parse stops outcome = pre ++ CB.onError e :: post) :
    post = [] :=
  shaped_error_terminal (fetchStreamChat_shaped parse stops outcome) pre e post h

theorem fetchStreamChat_error_is_terminal_witness :
    fetchStreamChat parseDemo (fun _ => false)
        (FetchOutcome.stream ["data: E\ndata: C".data] none) =
      [] ++ CB.onError "boom" :: [] ∧ ([] : List CB) = [] :=
  ⟨by decide,
    fetchStreamChat_error_is_terminal parseDemo (fun _ => false)
      (FetchOutcome.stream ["data: E\ndata: C".data] none) [] "boom" [] (by decide)⟩

theorem runLoop_stop_append (parse : List Char → Option SSEObj) (stops : Nat → Bool)
    (failMsg failMsg2 : Option String) :
    ∀ (chunks extra : List (List Char)) (i : Nat),
      stops (i + chunks.length) = true →
      runLoop parse stops failMsg (chunks ++ extra) i =
        runLoop parse stops failMsg2 chunks i
  | [], extra, i, h => by
    simp only [List.length_nil, Nat.add_zero] at h
    cases extra with
    | nil => simp [runLoop, h]
    | cons c rest => simp [runLoop, h]
  | c :: rest, extra, i, h => by
    have heq : i + 1 + rest.length = i + (c :: rest).length := by
      simp only [List.length_cons]
      omega
    have h' : stops (i + 1 + rest.length) = true := by rw [heq]; exact h
    have IH := runLoop_stop_append parse stops failMsg failMsg2 rest extra (i + 1) h'
    simp only [List.cons_append, runLoop]
    by_cases hs : stops i = true
    · simp [hs]
    · simp only [Bool.not_eq_true] at hs
      simp only [hs, Bool.false_eq_true, if_false]
      by_cases hr : (runLines parse (splitNl c)).2 = true
      · simp [hr]
      · simp only [Bool.not_eq_true] at hr
        simp only [hr, Bool.false_eq_true, if_false]
        exact congrArg (fun t => (runLines parse (splitNl c)).1 ++ t) IH

/-- C2: once `onStop()` returns `true` at the top of the read loop (here:
after `chunks.length` iterations), the loop exits without delivering any
further callback: fragments read after that point (`extra`) are never
emitted, and neither a completion nor a late read failure (`failMsg` vs
`failMsg2`) is observable.  With `chunks = []` this specializes to: a stop
observed at the very next loop entry yields no further callbacks at all. -/
theorem fetchStreamChat_stop_no_further_events (parse : List Char → Option SSEObj)
    (stops : Nat → Bool) (chunks extra : List (List Char))
    (failMsg failMsg2 : Option String) (h : stops chunks.length = true) :
    fetchStreamChat parse stops (FetchOutcome.stream (chunks ++ extra) failMsg) =
      fetchStreamChat parse stops (FetchOutcome.stream chunks failMsg2) :=
  runLoop_stop_append parse stops failMsg failMsg2 chunks extra 0 (by simpa using h)

theorem fetchStreamChat_stop_no_further_events_witness :
    (fun n => n == 1) 1 = true ∧
    fetchStreamChat parseDemo (fun n => n == 1)
        (FetchOutcome.stream (["data: C".data] ++ ["data: R".data]) (some "net")) =
      fetchStreamChat parseDemo (fun n => n == 1)
        (FetchOutcome.stream ["data: C".data] none) :=
  ⟨rfl,
    fetchStreamChat_stop_no_further_events parseDemo (fun n => n == 1)
      ["data: C".data] ["data: R".data] (some "net") none (by decide)⟩

/-- C8 (amended): a `chunk` or `reasoning_chunk` event whose `content` field
is absent or empty, and which carries no legacy `chunk` or `error` field,
triggers no callback at all and does not terminate the stream: processing the
line is the same as skipping it. -/
theorem runLines_empty_fragment_dropped (parse : List Char → Option SSEObj)
    (line : List Char) (rest : List (List Char)) (o : SSEObj)
    (h1 : isDataLine line = true)
    (h2 : ¬ trimChars (line.drop 6) = "[DONE]".data)
    (h3 : parse (trimChars (line.drop 6)) = some o)
    (h4 : o.type = some "chunk" ∨ o.type = some "reasoning_chunk")
    (h5 : truthy o.content = false)
    (h6 : o.chunk = none) (h7 : o.error = none) :
    runLines parse (line :: rest) = runLines parse rest := by
  have hobj : processObj o = ([], false) := by
    unfold processObj
    rcases h4 with h4 | h4 <;> simp [h4, h5, h6, h7, truthy] <;> exact h5
  rw [runLines, if_pos h1, if_neg h2]
  simp only [h3, hobj]
  simp

theorem runLines_empty_fragment_dropped_witness :
    isDataLine "data: Z".data = true ∧
    runLines parseDemo ["data: Z".data, "data: C".data] =
      runLines parseDemo ["data: C".data] :=
  ⟨by decide,
    runLines_empty_fragment_dropped parseDemo "data: Z".data ["data: C".data]
      ⟨some "chunk", some "", none, none⟩ (by decide) (by decide) (by decide)
      (Or.inl rfl) (by decide) rfl rfl⟩

/-- C8 as originally stated is false: a `chunk` event whose `content` is empty
but which carries a legacy `chunk` field `x` falls through to the
`else if (data.chunk)` branch and fires `onChunk x`, and one carrying a legacy
`error` field `e` falls through to `else if (data.error)`, fires `onError e`
and terminates the stream — so such an empty-content event is neither
callback-free nor always non-terminating. -/
theorem runLines_empty_fragment_counterexample :
    parseLegacy "L".data = some ⟨some "chunk", some "", some "x", none⟩ ∧
    runLines parseLegacy ["data: L".data] = ([CB.onChunk "x"], false) ∧
    parseLegacy "M".data = some ⟨some "chunk", some "", none, some "e"⟩ ∧
    runLines parseLegacy ["data: M".data] = ([CB.onError "e"], true) ∧
    ¬ ([CB.onChunk "x"] : List CB) = [] :=
  ⟨by decide, by decide, by decide, by decide, by decide⟩

/-- C9: a `data:` line whose payload is neither the literal `[DONE]` nor valid
JSON (`parse` fails) is ignored entirely: no callback fires, the stream is not
terminated, and processing continues with the remaining lines. -/
theorem runLines_invalid_json_ignored (parse : List Char → Option SSEObj)
    (line : List Char) (rest : List (List Char))
    (h1 : isDataLine line = true)
    (h2 : ¬ trimChars (line.drop 6) = "[DONE]".data)
    (h3 : parse (trimChars (line.drop 6)) = none) :
    runLines parse (line :: rest) = runLines parse rest := by
  rw [runLines, if_pos h1, if_neg h2]
  simp only [h3]

theorem runLines_invalid_json_ignored_witness :
    isDataLine "data: X".data = true ∧
    runLines parseDemo ["data: X".data, "data: C".data] =
      runLines parseDemo ["data: C".data] :=
  ⟨by decide,
    runLines_invalid_json_ignored parseDemo "data: X".data ["data: C".data]
      (by decide) (by decide) (by decide)⟩

theorem noTerm_of_cons {cb : CB} {l : List CB} (h : noTerm (cb :: l)) : noTerm l :=
  ⟨fun e hm => h.1 e (List.mem_cons_of_mem _ hm),
    fun hm => h.2 (List.mem_cons_of_mem _ hm)⟩

theorem foldl_handleStep_noTerm (sM0 : String) :
    ∀ (l : List CB) (st : HandleState), noTerm l →
      List.foldl (handleStep sM0) st l =
        ⟨st.fullResponse ++ chunkConcat l, st.fullReasoning ++ reasoningConcat l,
          st.messages, st.errMsg⟩
  | [], st, _ => by simp [chunkConcat, reasoningConcat]
  | cb :: l, st, h => by
    have IH := foldl_handleStep_noTerm sM0 l
    cases cb with
    | onChunk c =>
      simp only [List.foldl_cons, handleStep]
      rw [IH _ (noTerm_of_cons h)]
      simp [chunkConcat, reasoningConcat, String.append_assoc]
    | onReasoning c =>
      simp only [List.foldl_cons, handleStep]
      rw [IH _ (noTerm_of_cons h)]
      simp [chunkConcat, reasoningConcat, String.append_assoc]
    | onReasoningStart =>
      simp only [List.foldl_cons, handleStep]
      rw [IH _ (noTerm_of_cons h)]
      simp [chunkConcat, reasoningConcat]
    | onReasoningEnd =>
      simp only [List.foldl_cons, handleStep]
      rw [IH _ (noTerm_of_cons h)]
      simp [chunkConcat, reasoningConcat]
    | onAnswerStart =>
      simp only [List.foldl_cons, handleStep]
      rw [IH _ (noTerm_of_cons h)]
      simp [chunkConcat, reasoningConcat]
    | onMetadata =>
      simp only [List.foldl_cons, handleStep]
      rw [IH _ (noTerm_of_cons h)]
      simp [chunkConcat, reasoningConcat]
    | onError e => exact absurd (List.mem_cons_self _ _) (h.1 e)
    | onComplete => exact absurd (List.mem_cons_self _ _) h.2

theorem chunkConcat_append_complete :
    ∀ b : List CB, chunkConcat (b ++ [CB.onComplete]) = chunkConcat b
  | [] => rfl
  | cb :: b => by
    have IH := chunkConcat_append_complete b
    cases cb <;> simp [chunkConcat, IH]

theorem reasoningConcat_append_complete :
    ∀ b : List CB, reasoningConcat (b ++ [CB.onComplete]) = reasoningConcat b
  | [] => rfl
  | cb :: b => by
    have IH := reasoningConcat_append_complete b
    cases cb <;> simp [reasoningConcat, IH]

/-! ## C4, C5, C6: turn-level claims -/

/-- C5: when the stream delivers an `error` event, `onComplete` is never
invoked for that turn and `handleSend` appends no assistant message: the
message list after the failed turn is exactly the previous list plus the
user message. -/
theorem handleSend_error_appends_no_assistant (currentSessionId : Option String)
    (messages : List ChatMsg) (sM0 inputValue : String)
    (parse : List Char → Option SSEObj) (stops : Nat → Bool) (outcome : FetchOutcome)
    (e : String) (hin : ¬ jsTrim inputValue = "")
    (herr : CB.onError e ∈ fetchStreamChat parse stops outcome) :
    CB.onComplete ∉ fetchStreamChat parse stops outcome ∧
    (handleSend currentSessionId messages sM0 inputValue parse stops outcome).final.messages =
      messages ++ [⟨"user", inputValue, none⟩] := by
  obtain ⟨b, t, htr, hb, ht⟩ := fetchStreamChat_shaped parse stops outcome
  rcases ht with rfl | rfl | ⟨e', rfl⟩
  · exfalso
    rw [htr, List.append_nil] at herr
    exact hb.1 e herr
  · exfalso
    rw [htr] at herr
    rcases List.mem_append.mp herr with hm | hm
    · exact hb.1 e hm
    · simp at hm
  · constructor
    · rw [htr]
      intro hm
      rcases List.mem_append.mp hm with hm | hm
      · exact hb.2 hm
      · simp at hm
    · unfold handleSend
      rw [if_neg hin]
      rw [htr, List.foldl_append, foldl_handleStep_noTerm sM0 b _ hb]
      simp [handleStep]

theorem handleSend_error_appends_no_assistant_witness :
    CB.onError "boom" ∈ fetchStreamChat parseDemo (fun _ => false)
      (FetchOutcome.stream ["data: E".data] none) ∧
    (handleSend (some "s1") [⟨"user", "x", none⟩] "" "hi" parseDemo (fun _ => false)
        (FetchOutcome.stream ["data: E".data] none)).final.messages =
      [⟨"user", "x", none⟩, ⟨"user", "hi", none⟩] :=
  ⟨by decide, by
    rw [(handleSend_error_appends_no_assistant (some "s1") [⟨"user", "x", none⟩] "" "hi"
      parseDemo (fun _ => false) (FetchOutcome.stream ["data: E".data] none) "boom"
      (by decide) (by decide)).2]
    decide⟩

/-- C4 (amended): when the turn completes (`onComplete` delivered), the
assistant message persisted by `handleSend` carries exactly the concatenation
of the fragments delivered by `onChunk` (falling back to the captured
`streamingMessage` value when no chunk text accumulated), and a reasoning
transcript that is the concatenation of the fragments delivered by
`onReasoning` — where each `reasoning_chunk` event with nonempty content `c`
delivers the fragment `c ++ "\n"` (a newline is appended per event). -/
theorem handleSend_persists_streamed_text (currentSessionId : Option String)
    (messages : List ChatMsg) (sM0 inputValue : String)
    (parse : List Char → Option SSEObj) (stops : Nat → Bool) (outcome : FetchOutcome)
    (hin : ¬ jsTrim inputValue = "")
    (hdone : CB.onComplete ∈ fetchStreamChat parse stops outcome) :
    ((handleSend currentSessionId messages sM0 inputValue parse stops outcome).final.messages =
      messages ++ [⟨"user", inputValue, none⟩] ++
        [⟨"assistant",
          if chunkConcat (fetchStreamChat parse stops outcome) = "" then sM0
          else chunkConcat (fetchStreamChat parse stops outcome),
          some (reasoningConcat (fetchStreamChat parse stops outcome))⟩]) ∧
    (∀ (o : SSEObj) (c : String),
      o.type = some "reasoning_chunk" → o.content = some c → ¬ c = "" →
      processObj o = ([CB.onReasoning (c ++ "\n")], false)) := by
  constructor
  · obtain ⟨b, t, htr, hb, ht⟩ := fetchStreamChat_shaped parse stops outcome
    rcases ht with rfl | rfl | ⟨e', rfl⟩
    · exfalso
      rw [htr, List.append_nil] at hdone
      exact hb.2 hdone
    · have hc1 : chunkConcat (fetchStreamChat parse stops outcome) = chunkConcat b := by
        rw [htr, chunkConcat_append_complete]
      have hr1 : reasoningConcat (fetchStreamChat parse stops outcome) = reasoningConcat b := by
        rw [htr, reasoningConcat_append_complete]
      unfold handleSend
      rw [if_neg hin]
      rw [hc1, hr1, htr, List.foldl_append, foldl_handleStep_noTerm sM0 b _ hb]
      simp [handleStep, String.empty_append]
    · exfalso
      rw [htr] at hdone
      rcases List.mem_append.mp hdone with hm | hm
      · exact hb.2 hm
      · simp at hm
  · intro o c hty hc hne
    unfold processObj
    rw [if_neg (by simp [hty]), if_neg (by simp [hty]),
      if_pos ⟨hty, by simp [truthy, hc, hne]⟩]
    simp [hc]

theorem handleSend_persists_streamed_text_witness :
    ¬ jsTrim "hi" = "" ∧
    CB.onComplete ∈ fetchStreamChat parseDemo (fun _ => false)
      (FetchOutcome.stream ["data: R\ndata: C\ndata: D".data] none) ∧
    (handleSend none [] "stale" "hi" parseDemo (fun _ => false)
        (FetchOutcome.stream ["data: R\ndata: C\ndata: D".data] none)).final.messages =
      [⟨"user", "hi", none⟩, ⟨"assistant", "b", some "a\n"⟩] :=
  ⟨by decide, by decide, by
    rw [(handleSend_persists_streamed_text none [] "stale" "hi" parseDemo (fun _ => false)
      (FetchOutcome.stream ["data: R\ndata: C\ndata: D".data] none)
      (by decide) (by decide)).1]
    decide⟩

/-- C4 as originally stated is false in both of its clauses, at one concrete
turn that completes with `done` after a single `reasoning_chunk` event with
content `a` and zero `chunk` events, run with the captured `streamingMessage`
value `stale`: the persisted reasoning transcript is `a\n` (the code appends a
newline to each reasoning fragment), not the concatenation `a` of the event
contents; and the persisted content is `stale` (the `fullResponse ||
streamingMessage` fallback), not the empty concatenation of the delivered
chunk contents. -/
theorem handleSend_persisted_text_counterexample :
    parseDemo "R".data = some ⟨some "reasoning_chunk", some "a", none, none⟩ ∧
    chunkConcat (fetchStreamChat parseDemo (fun _ => false)
        (FetchOutcome.stream ["data: R\ndata: D".data] none)) = "" ∧
    (handleSend (some "s1") [] "stale" "hi" parseDemo (fun _ => false)
        (FetchOutcome.stream ["data: R\ndata: D".data] none)).final.messages =
      [⟨"user", "hi", none⟩, ⟨"assistant", "stale", some "a\n"⟩] ∧
    ¬ ("stale" : String) = "" ∧
    ¬ ("a\n" : String) = "a" :=
  ⟨by decide, by decide, by decide, by decide, by decide⟩

/-- C6: a session name is auto-assigned exactly on the first message of a
session (no current session, or an empty message list): it is the first 15
characters of the trimmed input with `...` appended exactly when the trimmed
input is longer than 15 characters; otherwise no name is assigned. -/
theorem handleSend_first_message_autoname (currentSessionId : Option String)
    (messages : List ChatMsg) (sM0 inputValue : String)
    (parse : List Char → Option SSEObj) (stops : Nat → Bool) (outcome : FetchOutcome)
    (hin : ¬ jsTrim inputValue = "") :
    ((currentSessionId.isNone || messages.isEmpty) = true →
      (handleSend currentSessionId messages sM0 inputValue parse stops outcome).nameSet =
        some (jsTake (jsTrim inputValue) 15 ++
          (if 15 < (jsTrim inputValue).data.length then "..." else ""))) ∧
    ((currentSessionId.isNone || messages.isEmpty) = false →
      (handleSend currentSessionId messages sM0 inputValue parse stops outcome).nameSet =
        none) := by
  constructor <;> intro hc <;> simp [handleSend, hin, hc, sessionNameFor]

theorem handleSend_first_message_autoname_witness :
    ¬ jsTrim " hello " = "" ∧
    ((none : Option String).isNone || ([] : List ChatMsg).isEmpty) = true ∧
    (handleSend none [] "" " hello " parseDemo (fun _ => false)
        (FetchOutcome.stream [] none)).nameSet =
      some (jsTake (jsTrim " hello ") 15 ++
        (if 15 < (jsTrim " hello ").data.length then "..." else "")) :=
  ⟨by decide, by decide,
    (handleSend_first_message_autoname none [] "" " hello " parseDemo (fun _ => false)
      (FetchOutcome.stream [] none) (by decide)).1 (by decide)⟩

theorem renameSession_idem (sessionId name : String) :
    ∀ server : List SessionInfo,
      renameSession sessionId name (renameSession sessionId name server) =
        renameSession sessionId name server
  | [] => rfl
  | s :: l => by
    have IH := renameSession_idem sessionId name l
    simp only [renameSession, List.map_cons, List.map_map] at IH ⊢
    rw [List.cons.injEq]
    constructor
    · by_cases h : s.session_id == sessionId
      · simp [h]
      · simp [h]
    · exact IH

/-- C7: renaming is idempotent: applying `updateSessionName` twice with the
same session id and name yields the same store state (same backend list and
same filtered session list) as applying it once. -/
theorem updateSessionName_idempotent (sessionId name : String) (now : Int)
    (st : SessionStoreState) :
    updateSessionName sessionId name now (updateSessionName sessionId name now st) =
      updateSessionName sessionId name now st := by
  unfold updateSessionName
  simp [renameSession_idem]

/-- C3: with `includeEmpty` unset, the stored list keeps exactly the
deduplicated sessions that have messages or a `last_active` within the
one-hour window (the code compares `last_active`, not the creation time);
sessions with zero messages outside the window are excluded, and with
`includeEmpty` set nothing is filtered out. -/
theorem refreshSessions_excludes_empty_stale (now : Int) (resp : List SessionInfo) :
    (∀ s ∈ refreshSessions false now resp,
      0 < s.message_count ∨ now - 60 * 60 * 1000 < s.last_active) ∧
    (∀ s ∈ uniqueSessions resp, s.message_count = 0 →
      s.last_active ≤ now - 60 * 60 * 1000 →
      s ∉ refreshSessions false now resp) ∧
    refreshSessions true now resp = uniqueSessions resp := by
  refine ⟨?_, ?_, by simp [refreshSessions]⟩
  · intro s hs
    simp [refreshSessions, List.mem_filter] at hs
    omega
  · intro s _ h0 hla hmem
    simp [refreshSessions, List.mem_filter] at hmem
    omega

theorem refreshSessions_excludes_empty_stale_witness :
    (⟨"s1", 0, -7200000, none, "m"⟩ : SessionInfo) ∈
      uniqueSessions [⟨"s1", 0, -7200000, none, "m"⟩, ⟨"s2", 2, -7200000, none, "m"⟩] ∧
    (⟨"s1", 0, -7200000, none, "m"⟩ : SessionInfo) ∉
      refreshSessions false 0
        [⟨"s1", 0, -7200000, none, "m"⟩, ⟨"s2", 2, -7200000, none, "m"⟩] :=
  ⟨by decide,
    (refreshSessions_excludes_empty_stale 0
      [⟨"s1", 0, -7200000, none, "m"⟩, ⟨"s2", 2, -7200000, none, "m"⟩]).2.1
      ⟨"s1", 0, -7200000, none, "m"⟩ (by decide) (by decide) (by decide)⟩

/-! ## C10: deduplication by session id, last occurrence winning -/

theorem jsMapSet_lookup (k' : String) (v : SessionInfo) :
    ∀ (m : List (String × SessionInfo)) (k : String),
      sessLookup (jsMapSet m k' v) k = if k = k' then some v else sessLookup m k
  | [], k => by
    by_cases hk : k = k'
    · subst hk
      simp [jsMapSet, sessLookup]
    · simp [jsMapSet, sessLookup, hk, Ne.symm hk]
  | p :: m, k => by
    have IH := jsMapSet_lookup k' v m k
    by_cases hp : (p.1 == k') = true
    · have hp' : p.1 = k' := by simpa [beq_iff_eq] using hp
      simp only [jsMapSet, hp, if_true]
      by_cases hk : k = k'
      · subst hk
        simp [sessLookup]
      · simp [sessLookup, hk, hp', Ne.symm hk]
    · rw [Bool.not_eq_true] at hp
      simp only [jsMapSet, hp, Bool.false_eq_true, if_false]
      by_cases hpk : (p.1 == k) = true
      · have hkk : ¬ k = k' := by
          intro he
          rw [he] at hpk
          rw [hpk] at hp
          simp at hp
        simp [sessLookup, hpk, hkk]
      · rw [Bool.not_eq_true] at hpk
        simp [sessLookup, hpk, IH]

theorem jsMapSet_keys_sub (k : String) (v : SessionInfo) :
    ∀ (m : List (String × SessionInfo)) (x : String),
      x ∈ (jsMapSet m k v).map Prod.fst → x ∈ m.map Prod.fst ∨ x = k
  | [], x => by simp [jsMapSet]
  | p :: m, x => by
    by_cases hp : (p.1 == k) = true
    · intro hx
      simp only [jsMapSet, hp, if_true, List.map_cons, List.mem_cons] at hx
      rcases hx with rfl | hx
      · exact Or.inr rfl
      · exact Or.inl (List.mem_cons_of_mem _ hx)
    · rw [Bool.not_eq_true] at hp
      intro hx
      simp only [jsMapSet, hp, Bool.false_eq_true, if_false, List.map_cons,
        List.mem_cons] at hx
      rcases hx with rfl | hx
      · exact Or.inl (List.mem_cons_self _ _)
      · rcases jsMapSet_keys_sub k v m x hx with h | h
        · exact Or.inl (List.mem_cons_of_mem _ h)
        · exact Or.inr h

theorem jsMapSet_keys_nodup (k : String) (v : SessionInfo) :
    ∀ m : List (String × SessionInfo),
      (m.map Prod.fst).Nodup → ((jsMapSet m k v).map Prod.fst).Nodup
  | [], _ => by simp [jsMapSet]
  | p :: m, h => by
    simp only [List.map_cons, List.nodup_cons] at h
    by_cases hp : (p.1 == k) = true
    · have hp' : p.1 = k := by simpa [beq_iff_eq] using hp
      simp only [jsMapSet, hp, if_true, List.map_cons, List.nodup_cons]
      exact ⟨by rw [← hp']; exact h.1, h.2⟩
    · rw [Bool.not_eq_true] at hp
      simp only [jsMapSet, hp, Bool.false_eq_true, if_false, List.map_cons,
        List.nodup_cons]
      refine ⟨fun hmem => ?_, jsMapSet_keys_nodup k v m h.2⟩
      rcases jsMapSet_keys_sub k v m p.1 hmem with hm | hm
      · exact h.1 hm
      · rw [hm] at hp
        simp at hp

theorem jsMapSet_inv (v : SessionInfo) :
    ∀ m : List (String × SessionInfo),
      (∀ p ∈ m, p.1 = p.2.session_id) →
      ∀ p ∈ jsMapSet m v.session_id v, p.1 = p.2.session_id
  | [], _, p, hp => by
    simp only [jsMapSet, List.mem_singleton] at hp
    subst hp
    rfl
  | q :: m, h, p, hp => by
    by_cases hq : (q.1 == v.session_id) = true
    · simp only [jsMapSet, hq, if_true, List.mem_cons] at hp
      rcases hp with rfl | hp
      · rfl
      · exact h p (List.mem_cons_of_mem _ hp)
    · rw [Bool.not_eq_true] at hq
      simp only [jsMapSet, hq, Bool.false_eq_true, if_false, List.mem_cons] at hp
      rcases hp with rfl | hp
      · exact h p (List.mem_cons_self _ _)
      · exact jsMapSet_inv v m (fun r hr => h r (List.mem_cons_of_mem _ hr)) p hp

theorem sessLookup_of_mem :
    ∀ (m : List (String × SessionInfo)) (k : String) (v : SessionInfo),
      (m.map Prod.fst).Nodup → (k, v) ∈ m → sessLookup m k = some v
  | [], k, v, _, h => by simp at h
  | p :: m, k, v, hnd, h => by
    simp only [List.map_cons, List.nodup_cons] at hnd
    rcases List.mem_cons.mp h with rfl | h
    · simp [sessLookup]
    · by_cases hp : (p.1 == k) = true
      · exfalso
        have hp' : p.1 = k := by simpa [beq_iff_eq] using hp
        refine hnd.1 ?_
        rw [hp']
        exact List.mem_map_of_mem Prod.fst h
      · rw [Bool.not_eq_true] at hp
        simp only [sessLookup, hp, Bool.false_eq_true, if_false]
        exact sessLookup_of_mem m k v hnd.2 h

theorem buildSessionMap_append (resp : List SessionInfo) (s : SessionInfo) :
    buildSessionMap (resp ++ [s]) = jsMapSet (buildSessionMap resp) s.session_id s := by
  simp [buildSessionMap, List.foldl_append]

theorem buildSessionMap_nodup (resp : List SessionInfo) :
    ((buildSessionMap resp).map Prod.fst).Nodup := by
  induction resp using List.reverseRecOn with
  | nil => simp [buildSessionMap]
  | append_singleton l s IH =>
    rw [buildSessionMap_append]
    exact jsMapSet_keys_nodup _ _ _ IH

theorem buildSessionMap_inv (resp : List SessionInfo) :
    ∀ p ∈ buildSessionMap resp, p.1 = p.2.session_id := by
  induction resp using List.reverseRecOn with
  | nil => simp [buildSessionMap]
  | append_singleton l s IH =>
    rw [buildSessionMap_append]
    exact jsMapSet_inv s _ IH

theorem buildSessionMap_lookup (resp : List SessionInfo) (k : String) :
    sessLookup (buildSessionMap resp) k =
      List.find? (fun t => t.session_id == k) resp.reverse := by
  induction resp using List.reverseRecOn with
  | nil => simp [buildSessionMap, sessLookup]
  | append_singleton l s IH =>
    rw [buildSessionMap_append, jsMapSet_lookup]
    rw [List.reverse_append]
    simp only [List.reverse_singleton, List.singleton_append]
    by_cases hk : k = s.session_id
    · subst hk
      simp
    · rw [List.find?_cons_of_neg _ (by simp [Ne.symm hk]), if_neg hk]
      exact IH

theorem uniqueSessions_last_wins (resp : List SessionInfo) :
    ∀ s ∈ uniqueSessions resp,
      List.find? (fun t => t.session_id == s.session_id) resp.reverse = some s := by
  intro s hs
  obtain ⟨p, hp, rfl⟩ := List.mem_map.mp hs
  have hinv := buildSessionMap_inv resp p hp
  have hl : sessLookup (buildSessionMap resp) p.1 = some p.2 :=
    sessLookup_of_mem _ _ _ (buildSessionMap_nodup resp) hp
  rw [← hinv, ← buildSessionMap_lookup]
  exact hl

/-- C10: after any `refreshSessions`, the stored list holds at most one entry
per `session_id` (the keyed map collapses duplicates before filtering), and
each stored entry is the last occurrence of its id in the server response. -/
theorem refreshSessions_no_duplicate_ids (includeEmpty : Bool) (now : Int)
    (resp : List SessionInfo) :
    ((refreshSessions includeEmpty now resp).map SessionInfo.session_id).Nodup ∧
    ∀ s ∈ refreshSessions includeEmpty now resp,
      List.find? (fun t => t.session_id == s.session_id) resp.reverse = some s := by
  have hkeys : (uniqueSessions resp).map SessionInfo.session_id =
      (buildSessionMap resp).map Prod.fst := by
    unfold uniqueSessions
    rw [List.map_map]
    exact List.map_congr_left fun p hp => (buildSessionMap_inv resp p hp).symm
  have hnodup_u : ((uniqueSessions resp).map SessionInfo.session_id).Nodup := by
    rw [hkeys]
    exact buildSessionMap_nodup resp
  have hsub : ∀ s ∈ refreshSessions includeEmpty now resp, s ∈ uniqueSessions resp := by
    intro s hs
    unfold refreshSessions at hs
    split at hs
    · exact hs
    · exact (List.mem_filter.mp hs).1
  constructor
  · unfold refreshSessions
    split
    · exact hnodup_u
    · exact List.Nodup.sublist
        (List.Sublist.map SessionInfo.session_id (List.filter_sublist _)) hnodup_u
  · intro s hs
    exact uniqueSessions_last_wins resp s (hsub s hs)

theorem refreshSessions_no_duplicate_ids_witness :
    (⟨"a", 7, 9, none, "n"⟩ : SessionInfo) ∈
      refreshSessions true 0 [⟨"a", 1, 5, none, "m"⟩, ⟨"a", 7, 9, none, "n"⟩] ∧
    List.find?
        (fun t => t.session_id == (⟨"a", 7, 9, none, "n"⟩ : SessionInfo).session_id)
        ([⟨"a", 1, 5, none, "m"⟩, ⟨"a", 7, 9, none, "n"⟩] : List SessionInfo).reverse =
      some ⟨"a", 7, 9, none, "n"⟩ :=
  ⟨by decide,
    (refreshSessions_no_duplicate_ids true 0
      [⟨"a", 1, 5, none, "m"⟩, ⟨"a", 7, 9, none, "n"⟩]).2
      ⟨"a", 7, 9, none, "n"⟩ (by decide)⟩

end ShuaiTravel
